import Mathlib

/-!
Shallow embedding of `src/screensaver.js` (hacker-screensaver).

JavaScript numbers are modelled as exact rationals (ℚ); every call to
`Math.random()` is modelled as an explicit parameter `r` with the
hypothesis `0 ≤ r ∧ r < 1` where it matters.  Stateful classes become
records, their `update` methods become pure state-transformer functions,
and mutation of `this.field` becomes a record update.  List mutation via
`push` becomes appending to the end of a Lean `List`, `Array.filter`
becomes `List.filter`, and `Array.find` becomes `List.find?`.
-/

/-! ## Matrix Rain (src/screensaver.js lines 37-79) -/

structure MatrixColumn where
  x : ℚ
  y : ℚ
  speed : ℚ
deriving DecidableEq, Repr

/-- Constructor `MatrixColumn(x, height)`: `y = Math.random() * -height`,
`speed = 50 + Math.random() * 150`; the two random draws are `r1, r2`. -/
def MatrixColumn.new (x height r1 r2 : ℚ) : MatrixColumn :=
  { x := x, y := r1 * (-height), speed := 50 + r2 * 150 }

/-- Method `MatrixColumn.update(dt, height)`: `y += speed*dt`, then
`if (y > height + 100) y = Math.random() * -height` with random `r`. -/
def MatrixColumn.update (c : MatrixColumn) (dt height r : ℚ) : MatrixColumn :=
  let y2 := c.y + c.speed * dt
  if y2 > height + 100 then { c with y := r * (-height) } else { c with y := y2 }

/-- Iterate `MatrixColumn.update` over a list of (dt, random) pairs. -/
def MatrixColumn.run (c : MatrixColumn) (height : ℚ) (steps : List (ℚ × ℚ)) : MatrixColumn :=
  steps.foldl (fun c s => c.update s.1 height s.2) c

structure MatrixRainSystem where
  columns : List MatrixColumn
  spacing : ℕ
deriving Repr

/-- Loop body of `MatrixRainSystem.reset`:
`for (let x = 0; x < width; x += this.spacing) columns.push(new MatrixColumn(x, height))`
with `spacing = 16`.  The i-th created column receives randoms `r i`. -/
def MatrixRainSystem.resetLoop (x width : ℕ) (height : ℚ) (r : ℕ → ℚ × ℚ) (i : ℕ) :
    List MatrixColumn :=
  if x < width then
    MatrixColumn.new x height (r i).1 (r i).2 :: MatrixRainSystem.resetLoop (x + 16) width height r (i + 1)
  else []
termination_by width - x
decreasing_by omega

/-- Method `MatrixRainSystem.reset(width, height)`. -/
def MatrixRainSystem.reset (s : MatrixRainSystem) (width : ℕ) (height : ℚ) (r : ℕ → ℚ × ℚ) :
    MatrixRainSystem :=
  { s with columns := MatrixRainSystem.resetLoop 0 width height r 0 }

/-- Constructor `MatrixRainSystem(width, height)`: `spacing = 16`, then `reset`. -/
def MatrixRainSystem.new (width : ℕ) (height : ℚ) (r : ℕ → ℚ × ℚ) : MatrixRainSystem :=
  MatrixRainSystem.reset { columns := [], spacing := 16 } width height r

/-- Method `MatrixRainSystem.update(dt, width, height)`:
`columns.forEach(col => col.update(dt, height))`; the i-th column receives
wrap-random `r i`. -/
def MatrixRainSystem.update (s : MatrixRainSystem) (dt height : ℚ) (r : ℕ → ℚ) :
    MatrixRainSystem :=
  { s with columns := (s.columns.enum).map (fun ci => ci.2.update dt height (r ci.1)) }

/-! ## Code Chunks (src/screensaver.js lines 87-158) -/

inductive ChunkState where
  | fadeIn
  | hold
  | fadeOut
deriving DecidableEq, Repr

structure CodeChunk where
  direction : ℚ
  speed : ℚ
  alpha : ℚ
  state : ChunkState
  y : ℚ
  x : ℚ
  textLines : List String
  holdTime : ℚ
deriving DecidableEq, Repr

/-- Constructor `CodeChunk(width, height, textLines, direction)`; randoms
`rs` (speed), `ry` (vertical position).  `holdTime` is undefined in the JS
object until the fadeIn-to-hold transition; it is modelled as 0 since no
code reads it before that transition writes it. -/
def CodeChunk.new (width height : ℚ) (textLines : List String) (direction rs ry : ℚ) :
    CodeChunk :=
  { direction := direction
    speed := 20 + rs * 40
    alpha := 0
    state := ChunkState.fadeIn
    y := 50 + ry * (height - 100)
    x := if direction = 1 then -300 else width + 300
    textLines := textLines
    holdTime := 0 }

/-- Method `CodeChunk.update(dt)`; `rh` is the random drawn for
`holdTime = 2 + Math.random() * 3` on the fadeIn-to-hold transition. -/
def CodeChunk.update (c : CodeChunk) (dt rh : ℚ) : CodeChunk :=
  let c := { c with x := c.x + c.direction * c.speed * dt }
  match c.state with
  | ChunkState.fadeIn =>
    let a := c.alpha + dt * 0.5
    if a ≥ 0.8 then
      { c with alpha := 0.8, state := ChunkState.hold, holdTime := 2 + rh * 3 }
    else
      { c with alpha := a }
  | ChunkState.hold =>
    let h := c.holdTime - dt
    if h ≤ 0 then { c with holdTime := h, state := ChunkState.fadeOut }
    else { c with holdTime := h }
  | ChunkState.fadeOut =>
    { c with alpha := c.alpha - dt * 0.3 }

/-- Method `CodeChunk.isDead(width)`:
`return this.alpha <= 0 && (this.x < -400 || this.x > width + 400)`. -/
def CodeChunk.isDead (c : CodeChunk) (width : ℚ) : Bool :=
  decide (c.alpha ≤ 0) && (decide (c.x < -400) || decide (c.x > width + 400))

/-- Iterate `CodeChunk.update` over a list of (dt, random) pairs. -/
def CodeChunk.run (c : CodeChunk) (steps : List (ℚ × ℚ)) : CodeChunk :=
  steps.foldl (fun c s => c.update s.1 s.2) c

/-- Fixed snippet pool of `CodeChunkSystem.randomSnippet`. -/
def snippetPool : List (List String) :=
  [ ["for (let i = 0; i < nodes.length; i++) \x7b", "  sendPacket(hacker, nodes[i]);", "\x7d"]
  , ["def exploit(target):", "    payload = build_payload(target)", "    send(payload)",
     "    return get_shell()"]
  , ["<div class=\"node hacked\">", "  <span>&#9760; root access</span>", "</div>"]
  , ["0x48 0x45 0x4C 0x4C 0x4F", "0x52 0x4F 0x4F 0x54"] ]

/-- Method `CodeChunkSystem.randomSnippet()`: index `Math.floor(r * 4)`. -/
def randomSnippet (r : ℚ) : List String :=
  snippetPool.getD (Int.toNat ⌊r * (snippetPool.length : ℚ)⌋) []

structure CodeChunkSystem where
  chunks : List CodeChunk
  timer : ℚ
deriving Repr

/-- Constructor `CodeChunkSystem()`: empty chunk list, `timer = 0`. -/
def CodeChunkSystem.new : CodeChunkSystem :=
  { chunks := [], timer := 0 }

/-- Method `CodeChunkSystem.update(dt, width, height)`.  Randoms: `rt` for
the next spawn interval, `rd` for direction, `rsnip` for the snippet,
`rs`, `ry` for the spawned chunk, and `rh i` for the holdTime draw of the
i-th active chunk. -/
def CodeChunkSystem.update (s : CodeChunkSystem) (dt width height rt rd rsnip rs ry : ℚ)
    (rh : ℕ → ℚ) : CodeChunkSystem :=
  let t := s.timer - dt
  let (t, cs) :=
    if t ≤ 0 then
      (5 + rt * 5,
       s.chunks ++ [CodeChunk.new width height (randomSnippet rsnip)
                      (if rd > 0.5 then 1 else -1) rs ry])
    else (t, s.chunks)
  let cs := (cs.enum).map (fun ci => ci.2.update dt (rh ci.1))
  { chunks := cs.filter (fun c => !c.isDead width), timer := t }

/-! ## Node Network (src/screensaver.js lines 165-322) -/

structure Node where
  id : String
  x : ℚ
  y : ℚ
  type : String
  hackedAlpha : ℚ
deriving DecidableEq, Repr

instance : Inhabited Node := ⟨⟨"", 0, 0, "", 0⟩⟩

/-- Constructor `Node(id, x, y, type)`: `hackedAlpha = 0`. -/
def Node.new (id : String) (x y : ℚ) (type : String) : Node :=
  { id := id, x := x, y := y, type := type, hackedAlpha := 0 }

/-- Method `Node.update(dt)`: if `hackedAlpha > 0`, decay by `dt * 0.2`
and floor at 0. -/
def Node.update (n : Node) (dt : ℚ) : Node :=
  if n.hackedAlpha > 0 then
    let a := n.hackedAlpha - dt * 0.2
    { n with hackedAlpha := if a < 0 then 0 else a }
  else n

/-- Operations the rest of the program performs on a node: a frame decay
step (`Node.update(dt)`) or the write `node.hackedAlpha = 1.0` done by
`HackEvent.update` (the only write to `hackedAlpha` outside `Node.update`,
lines 347 and 360 of the source). -/
inductive NodeOp where
  | decay (dt : ℚ)
  | hack
deriving DecidableEq, Repr

/-- Apply one node operation. -/
def Node.applyOp (n : Node) (op : NodeOp) : Node :=
  match op with
  | NodeOp.decay dt => n.update dt
  | NodeOp.hack => { n with hackedAlpha := 1 }

/-- Apply a sequence of node operations. -/
def Node.runOps (n : Node) (ops : List NodeOp) : Node :=
  ops.foldl Node.applyOp n

structure Link where
  from_ : Node
  to_ : Node
deriving DecidableEq, Repr

structure Packet where
  link : Link
  t : ℚ
  speed : ℚ
  color : String
deriving DecidableEq, Repr

/-- Constructor `Packet(link, color, speed)`: `t = 0`. -/
def Packet.new (link : Link) (color : String) (speed : ℚ) : Packet :=
  { link := link, t := 0, speed := speed, color := color }

/-- Method `Packet.update(dt)`: `t += (speed * dt) / 1000`. -/
def Packet.update (p : Packet) (dt : ℚ) : Packet :=
  { p with t := p.t + p.speed * dt / 1000 }

/-- Method `Packet.isDone()`: `return t >= 1`. -/
def Packet.isDone (p : Packet) : Bool :=
  decide (p.t ≥ 1)

structure NodeNetworkSystem where
  nodes : List Node
  links : List Link
  packets : List Packet
  normalTrafficTimer : ℚ
deriving Repr

/-- The nine nodes built by `NodeNetworkSystem.setupLayout(width, height)`. -/
def setupNodes (width height : ℚ) : List Node :=
  let cx := width * 0.45
  let cy := height * 0.35
  let sx := width * 0.25
  let sy := height * 0.25
  [ Node.new "hacker" (width * 0.72) (height * 0.65) "hacker"
  , Node.new "server" (cx - sx * 0.4) (cy - sy * 0.4) "server"
  , Node.new "desktop1" cx (cy - sy * 0.6) "desktop"
  , Node.new "desktop2" (cx + sx * 0.4) (cy - sy * 0.3) "desktop"
  , Node.new "router" cx cy "router"
  , Node.new "laptop1" (cx - sx * 0.5) (cy + sy * 0.2) "laptop"
  , Node.new "phone" (cx + sx * 0.3) (cy + sy * 0.3) "phone"
  , Node.new "iot" (cx - sx * 0.1) (cy + sy * 0.5) "iot"
  , Node.new "cloud" (cx + sx * 0.5) (cy - sy * 0.7) "cloud" ]

/-- The static links of `setupLayout`; `get` is
`id => this.nodes.find(n => n.id === id)` (always succeeds on this layout,
so the `undefined` case is given the default node). -/
def setupLinks (nodes : List Node) : List Link :=
  let get := fun id => (nodes.find? (fun n => n.id = id)).getD default
  [ Link.mk (get "router") (get "server")
  , Link.mk (get "router") (get "desktop1")
  , Link.mk (get "router") (get "desktop2")
  , Link.mk (get "router") (get "laptop1")
  , Link.mk (get "router") (get "phone")
  , Link.mk (get "router") (get "iot")
  , Link.mk (get "router") (get "cloud")
  , Link.mk (get "hacker") (get "router") ]

/-- Method `NodeNetworkSystem.setupLayout(width, height)`: replaces
`this.nodes` and `this.links`; packets and the traffic timer are untouched. -/
def NodeNetworkSystem.setupLayout (s : NodeNetworkSystem) (width height : ℚ) :
    NodeNetworkSystem :=
  { s with nodes := setupNodes width height, links := setupLinks (setupNodes width height) }

/-- Constructor `NodeNetworkSystem(width, height)`: empty collections,
`normalTrafficTimer = 0`, then `setupLayout`. -/
def NodeNetworkSystem.new (width height : ℚ) : NodeNetworkSystem :=
  NodeNetworkSystem.setupLayout
    { nodes := [], links := [], packets := [], normalTrafficTimer := 0 } width height

/-- Method `NodeNetworkSystem.sendPacket(fromId, toId, color, speed)`:
look up both endpoints with `Array.find`; return unchanged if either is
missing; otherwise push one `Packet` on a fresh `Link`. -/
def NodeNetworkSystem.sendPacket (s : NodeNetworkSystem) (fromId toId color : String)
    (speed : ℚ) : NodeNetworkSystem :=
  match s.nodes.find? (fun n => n.id = fromId), s.nodes.find? (fun n => n.id = toId) with
  | some nf, some nt =>
    { s with packets := s.packets ++ [Packet.new (Link.mk nf nt) color speed] }
  | _, _ => s

/-- First half of `NodeNetworkSystem.update(dt, width, height)` (lines
293-307): decay all nodes, run the background-traffic countdown and, when
it expires, send the `router -> target` and `target -> router` packet pair.
Randoms: `rt` next interval, `rp` target pick, `rs1`, `rs2` speeds. -/
def NodeNetworkSystem.stepTraffic (s : NodeNetworkSystem) (dt rt rp rs1 rs2 : ℚ) :
    NodeNetworkSystem :=
  let s := { s with nodes := s.nodes.map (fun n : Node => n.update dt) }
  let timer := s.normalTrafficTimer - dt
  if timer ≤ 0 then
    let s := { s with normalTrafficTimer := 0.3 + rt * 0.7 }
    match s.nodes.find? (fun n : Node => n.id = "router") with
    | some router =>
      let others := s.nodes.filter (fun n : Node => n.id ≠ "router" && n.id ≠ "hacker")
      if others.length ≠ 0 then
        let target := others.getD (Int.toNat ⌊rp * (others.length : ℚ)⌋) default
        let s := s.sendPacket router.id target.id "#00ff88" (120 + rs1 * 120)
        s.sendPacket target.id router.id "#00ff88" (120 + rs2 * 120)
      else s
    | none => s
  else { s with normalTrafficTimer := timer }

/-- Second half of `NodeNetworkSystem.update` (lines 309-311): advance all
packets and drop finished ones. -/
def NodeNetworkSystem.stepPackets (s : NodeNetworkSystem) (dt : ℚ) : NodeNetworkSystem :=
  { s with packets := (s.packets.map (fun p => p.update dt)).filter (fun p => !p.isDone) }

/-- Method `NodeNetworkSystem.update(dt, width, height)` in full. -/
def NodeNetworkSystem.update (s : NodeNetworkSystem) (dt rt rp rs1 rs2 : ℚ) :
    NodeNetworkSystem :=
  (s.stepTraffic dt rt rp rs1 rs2).stepPackets dt

/-! ## Hack events (src/screensaver.js lines 332-392) -/

inductive HackState where
  | prepare
  | launch
  | inFlight
  | impact
  | done
deriving DecidableEq, Repr

/-- HackEvent.  The JS object keeps references `this.hacker` and
`this.target` into the network node pool; since those two are distinct
objects and the only node fields `HackEvent.update` touches are theirs,
the references are embedded as the node values `hacker` and `target`
carried by the event. -/
structure HackEvent where
  state : HackState
  timer : ℚ
  hacker : Node
  target : Node
  packet : Option Packet
deriving DecidableEq, Repr

/-- Constructor `HackEvent(network)`: state `prepare`, timer 0, hacker is
`nodes.find` by the id hacker, target is drawn uniformly from all
nodes except hacker and router (random `rtgt`). -/
def HackEvent.new (nodes : List Node) (rtgt : ℚ) : HackEvent :=
  let targets := nodes.filter (fun n => n.id ≠ "hacker" && n.id ≠ "router")
  { state := HackState.prepare
    timer := 0
    hacker := (nodes.find? (fun n => n.id = "hacker")).getD default
    target := targets.getD (Int.toNat ⌊rtgt * (targets.length : ℚ)⌋) default
    packet := none }

/-- Method `HackEvent.update(dt)`.  The network packet list the event
pushes into is threaded explicitly; the result is the updated event and
the updated packet list. -/
def HackEvent.update (e : HackEvent) (netPackets : List Packet) (dt : ℚ) :
    HackEvent × List Packet :=
  let timer := e.timer + dt
  match e.state with
  | HackState.prepare =>
    let e := { e with timer := timer, hacker := { e.hacker with hackedAlpha := 1 } }
    if timer > 0.5 then ({ e with state := HackState.launch, timer := 0 }, netPackets)
    else (e, netPackets)
  | HackState.launch =>
    let p := Packet.new (Link.mk e.hacker e.target) "#ff0066" 260
    ({ e with timer := timer, state := HackState.inFlight, packet := some p },
     netPackets ++ [p])
  | HackState.inFlight =>
    match e.packet with
    | some p =>
      if p.isDone then
        ({ e with target := { e.target with hackedAlpha := 1 },
                  state := HackState.impact, timer := 0 }, netPackets)
      else ({ e with timer := timer }, netPackets)
    | none => ({ e with timer := timer }, netPackets)
  | HackState.impact =>
    if timer > 1.5 then ({ e with timer := timer, state := HackState.done }, netPackets)
    else ({ e with timer := timer }, netPackets)
  | HackState.done => ({ e with timer := timer }, netPackets)

/-- Method `HackEvent.isDone()`: whether the state is done. -/
def HackEvent.isDone (e : HackEvent) : Bool :=
  decide (e.state = HackState.done)

structure HackSystem where
  events : List HackEvent
  cooldown : ℚ
deriving Repr

/-- Constructor `HackSystem(network)`: empty event list, `cooldown = 0`. -/
def HackSystem.new : HackSystem :=
  { events := [], cooldown := 0 }

/-- Method `HackSystem.update(dt)`: run the cooldown (reset to
`5 + r * 10`, spawning one event bound to the network nodes), update every
event in order (threading the network packet list through), then drop
finished events.  Randoms: `rc` cooldown, `rtgt` target pick. -/
def HackSystem.update (s : HackSystem) (nodes : List Node) (netPackets : List Packet)
    (dt rc rtgt : ℚ) : HackSystem × List Packet :=
  let cd := s.cooldown - dt
  let (cd, evs) :=
    if cd ≤ 0 then (5 + rc * 10, s.events ++ [HackEvent.new nodes rtgt])
    else (cd, s.events)
  let (evs, ps) := evs.foldl
    (fun acc e =>
      let r := e.update acc.2 dt
      (acc.1 ++ [r.1], r.2))
    (([] : List HackEvent), netPackets)
  ({ events := evs.filter (fun e => !e.isDone), cooldown := cd }, ps)

/-! ## Reference-identity model of the network (for the aliasing behaviour
of `setupLayout`, src/screensaver.js lines 248-283 and 324-327).

Here node objects live in an explicit heap addressed by allocation order;
`Link` and `Packet` hold addresses, exactly as the JS objects hold
references.  `setupLayout` allocates nine fresh node objects and replaces
the address list `nodes`; it never writes to a previously allocated
address and never touches the packet list. -/

namespace RefModel

structure NodeObj where
  id : String
  x : ℚ
  y : ℚ
  type : String
  hackedAlpha : ℚ
deriving DecidableEq, Repr

instance : Inhabited NodeObj := ⟨⟨"", 0, 0, "", 0⟩⟩

structure PacketRef where
  fromAddr : ℕ
  toAddr : ℕ
  t : ℚ
  speed : ℚ
  color : String
deriving DecidableEq, Repr

structure NetRef where
  heap : ℕ → NodeObj
  nextAddr : ℕ
  nodes : List ℕ
  links : List (ℕ × ℕ)
  packets : List PacketRef

/-- The nine freshly constructed node objects of `setupLayout`, in
allocation order (each `new Node(...)` sets `hackedAlpha = 0`). -/
def layoutObjs (width height : ℚ) : List NodeObj :=
  (setupNodes width height).map (fun n => ⟨n.id, n.x, n.y, n.type, n.hackedAlpha⟩)

/-- Method `NodeNetworkSystem.setupLayout(width, height)` on the
reference model: allocate the nine objects at `nextAddr ..
nextAddr + 8`, point `this.nodes` at the fresh addresses, rebuild
`this.links` by id lookup among the fresh nodes; `this.packets` is not
touched, nor is any previously allocated object. -/
def NetRef.setupLayout (s : NetRef) (width height : ℚ) : NetRef :=
  let base := s.nextAddr
  let objs := layoutObjs width height
  let heap := fun a => if base ≤ a ∧ a < base + objs.length then objs.getD (a - base) default
                       else s.heap a
  let nodes := (List.range objs.length).map (fun i => base + i)
  let get := fun id => (nodes.find? (fun a => (heap a).id = id)).getD 0
  { heap := heap
    nextAddr := base + objs.length
    nodes := nodes
    links := [ (get "router", get "server"), (get "router", get "desktop1")
             , (get "router", get "desktop2"), (get "router", get "laptop1")
             , (get "router", get "phone"), (get "router", get "iot")
             , (get "router", get "cloud"), (get "hacker", get "router") ]
    packets := s.packets }

end RefModel

/-! ## Helper lemmas -/

/-- Length of the reset loop: one column per 16px interval, i.e. the
ceiling of `(width - x) / 16`. -/
theorem resetLoop_length (width : ℕ) (height : ℚ) (r : ℕ → ℚ × ℚ) (x i : ℕ) :
    (MatrixRainSystem.resetLoop x width height r i).length = (width - x + 15) / 16 := by
  by_cases hx : x < width
  · rw [MatrixRainSystem.resetLoop]
    rw [if_pos hx, List.length_cons, resetLoop_length width height r (x + 16) (i + 1)]
    omega
  · rw [MatrixRainSystem.resetLoop]
    rw [if_neg hx, List.length_nil]
    omega
termination_by width - x
decreasing_by omega

/-! ## C8 -/

/-- C8: after `MatrixRainSystem.reset(width, height)` the number of columns
equals the ceiling of width/16, written in ℕ as `(width + 15) / 16` (for
width 1024 this is 64), and `update` never changes the column count. -/
theorem rain_column_count (s s2 : MatrixRainSystem) (width : ℕ) (height dt h2 : ℚ)
    (r : ℕ → ℚ × ℚ) (r2 : ℕ → ℚ) :
    (s.reset width height r).columns.length = (width + 15) / 16 ∧
    (MatrixRainSystem.new 1024 height r).columns.length = 64 ∧
    (s2.update dt h2 r2).columns.length = s2.columns.length := by
  refine ⟨?_, ?_, ?_⟩
  · rw [MatrixRainSystem.reset]
    simpa using resetLoop_length width height r 0 0
  · rw [MatrixRainSystem.new, MatrixRainSystem.reset]
    simpa using resetLoop_length 1024 height r 0 0
  · rw [MatrixRainSystem.update]
    simp [List.enum_length]

/-! ## C5 -/

/-- C5: a CodeChunk is removed exactly when opacity ≤ 0 and x is more than
400px outside the surface; a chunk with positive opacity is never removed,
a chunk within the margin is never removed, and the system update drops
exactly the chunks whose `isDead` holds after their own update. -/
theorem codeChunk_removal (c : CodeChunk) (width : ℚ) (s : CodeChunkSystem)
    (dt height rt rd rsnip rs ry : ℚ) (rh : ℕ → ℚ) :
    (c.isDead width = true ↔ c.alpha ≤ 0 ∧ (c.x < -400 ∨ c.x > width + 400)) ∧
    (0 < c.alpha → c.isDead width = false) ∧
    (-400 ≤ c.x ∧ c.x ≤ width + 400 → c.isDead width = false) ∧
    ((s.update dt width height rt rd rsnip rs ry rh).chunks =
      ((((if s.timer - dt ≤ 0 then
            s.chunks ++ [CodeChunk.new width height (randomSnippet rsnip)
              (if rd > 0.5 then 1 else -1) rs ry]
          else s.chunks).enum).map (fun ci => ci.2.update dt (rh ci.1))).filter
        (fun c => !c.isDead width))) := by
  refine ⟨?_, ?_, ?_, ?_⟩
  · simp [CodeChunk.isDead]
  · intro h
    simp [CodeChunk.isDead, not_le.mpr h]
  · rintro ⟨h1, h2⟩
    simp [CodeChunk.isDead, not_lt.mpr h1, not_lt.mpr h2]
  · rw [CodeChunkSystem.update]
    by_cases h : s.timer - dt ≤ 0
    · simp only [if_pos h]
    · simp only [if_neg h]

/-- Witness for C5 at a concrete chunk: positive opacity prevents removal
even far outside the margin. -/
theorem codeChunk_removal_witness :
    (CodeChunk.mk 1 20 (1/2) ChunkState.fadeIn 0 (-1000) [] 0).isDead 100 = false :=
  (codeChunk_removal (CodeChunk.mk 1 20 (1/2) ChunkState.fadeIn 0 (-1000) [] 0) 100
    CodeChunkSystem.new 0 0 0 0 0 0 0 (fun _ => 0)).2.1 (by norm_num)

/-! ## C4 -/

/-- Node invariant is preserved by one operation. -/
theorem node_applyOp_bounds (n : Node) (op : NodeOp)
    (hn : 0 ≤ n.hackedAlpha ∧ n.hackedAlpha ≤ 1)
    (hop : ∀ dt, op = NodeOp.decay dt → 0 ≤ dt) :
    0 ≤ (n.applyOp op).hackedAlpha ∧ (n.applyOp op).hackedAlpha ≤ 1 := by
  cases op with
  | hack => exact ⟨by norm_num [Node.applyOp], by norm_num [Node.applyOp]⟩
  | decay dt =>
    have hdt : 0 ≤ dt := hop dt rfl
    simp only [Node.applyOp, Node.update]
    split
    · split
      · exact ⟨le_refl 0, by norm_num⟩
      · constructor
        · linarith [not_lt.mp (by assumption : ¬ n.hackedAlpha - dt * 0.2 < 0)]
        · nlinarith [hn.2, hdt]
    · exact hn

/-- Node invariant is preserved by any sequence of operations. -/
theorem node_runOps_bounds : ∀ (ops : List NodeOp) (n : Node),
    0 ≤ n.hackedAlpha ∧ n.hackedAlpha ≤ 1 →
    (∀ op ∈ ops, ∀ dt, op = NodeOp.decay dt → 0 ≤ dt) →
    0 ≤ (n.runOps ops).hackedAlpha ∧ (n.runOps ops).hackedAlpha ≤ 1 := by
  intro ops
  induction ops with
  | nil =>
    intro n hn _
    simpa [Node.runOps] using hn
  | cons op rest ih =>
    intro n hn hops
    have h1 := node_applyOp_bounds n op hn (fun dt hdt => hops op (by simp) dt hdt)
    have h2 : ∀ o ∈ rest, ∀ dt, o = NodeOp.decay dt → 0 ≤ dt :=
      fun o ho dt hdt => hops o (by simp [ho]) dt hdt
    simpa [Node.runOps, List.foldl_cons] using ih (n.applyOp op) h1 h2

/-- C4: starting from a freshly constructed node (highlight 0), any
sequence of decay updates with dt ≥ 0 interleaved with the hack write
(`hackedAlpha = 1.0`, the only write outside `Node.update`) keeps the
highlight within [0,1]; moreover one decay step subtracts `dt * 0.2` and
floors at 0, and a node with highlight 0 is left unchanged. -/
theorem node_highlight_bounds (id : String) (x y : ℚ) (type : String) (ops : List NodeOp)
    (hops : ∀ op ∈ ops, ∀ dt, op = NodeOp.decay dt → 0 ≤ dt) (m : Node) (dt : ℚ) :
    (0 ≤ ((Node.new id x y type).runOps ops).hackedAlpha ∧
     ((Node.new id x y type).runOps ops).hackedAlpha ≤ 1) ∧
    (0 < m.hackedAlpha → 0 ≤ m.hackedAlpha - dt * 0.2 →
      (m.update dt).hackedAlpha = m.hackedAlpha - dt * 0.2) ∧
    (0 < m.hackedAlpha → m.hackedAlpha - dt * 0.2 < 0 →
      (m.update dt).hackedAlpha = 0) ∧
    (¬ 0 < m.hackedAlpha → (m.update dt).hackedAlpha = m.hackedAlpha) := by
  refine ⟨?_, ?_, ?_, ?_⟩
  · exact node_runOps_bounds ops (Node.new id x y type)
      ⟨by norm_num [Node.new], by norm_num [Node.new]⟩ hops
  · intro h1 h2
    simp only [Node.update, if_pos h1]
    rw [if_neg (not_lt.mpr h2)]
  · intro h1 h2
    simp only [Node.update, if_pos h1]
    rw [if_pos h2]
  · intro h1
    simp only [Node.update, if_neg h1]

/-- Witness for C4: a hack write followed by two decay steps of 2.6s each
keeps the highlight of a fresh node inside [0,1]. -/
theorem node_highlight_bounds_witness :
    0 ≤ ((Node.new "hacker" 0 0 "hacker").runOps
          [NodeOp.hack, NodeOp.decay 2.6, NodeOp.decay 2.6]).hackedAlpha ∧
    ((Node.new "hacker" 0 0 "hacker").runOps
          [NodeOp.hack, NodeOp.decay 2.6, NodeOp.decay 2.6]).hackedAlpha ≤ 1 :=
  (node_highlight_bounds "hacker" 0 0 "hacker"
    [NodeOp.hack, NodeOp.decay 2.6, NodeOp.decay 2.6]
    (by intro op hop dt hdt
        simp only [List.mem_cons, List.not_mem_nil, or_false] at hop
        rcases hop with h | h | h <;> rw [h] at hdt
        · exact absurd hdt (by simp)
        · injection hdt with h2
          rw [← h2]; norm_num
        · injection hdt with h2
          rw [← h2]; norm_num)
    (Node.new "hacker" 0 0 "hacker") 0).1

/-! ## C7 -/

/-- One rain-column step stays inside [-height, height+100] and keeps the
column speed. -/
theorem matrixColumn_step_bounds (c : MatrixColumn) (dt height r : ℚ)
    (hdt : 0 ≤ dt) (hsp : 0 ≤ c.speed) (hr0 : 0 ≤ r) (hr1 : r < 1) (hh : 0 < height)
    (hy1 : -height ≤ c.y) (hy2 : c.y ≤ height + 100) :
    -height ≤ (c.update dt height r).y ∧ (c.update dt height r).y ≤ height + 100 ∧
    (c.update dt height r).speed = c.speed := by
  rw [MatrixColumn.update]
  by_cases h : c.y + c.speed * dt > height + 100
  · simp only [if_pos h]
    refine ⟨?_, ?_, by trivial⟩
    · nlinarith [mul_nonneg (by linarith : (0:ℚ) ≤ 1 - r) hh.le]
    · nlinarith [mul_nonneg hr0 hh.le]
  · simp only [if_neg h]
    refine ⟨?_, ?_, by trivial⟩
    · nlinarith [mul_nonneg hsp hdt]
    · exact not_lt.mp h

/-- The rain-column bound is preserved over any run. -/
theorem matrixColumn_run_bounds : ∀ (steps : List (ℚ × ℚ)) (c : MatrixColumn) (height : ℚ),
    0 < height → 0 ≤ c.speed →
    (∀ s ∈ steps, 0 ≤ s.1 ∧ 0 ≤ s.2 ∧ s.2 < 1) →
    -height ≤ c.y → c.y ≤ height + 100 →
    -height ≤ (c.run height steps).y ∧ (c.run height steps).y ≤ height + 100 := by
  intro steps
  induction steps with
  | nil =>
    intro c height _ _ _ hy1 hy2
    exact ⟨hy1, hy2⟩
  | cons s rest ih =>
    intro c height hh hsp hsteps hy1 hy2
    have hs := hsteps s (by simp)
    have hb := matrixColumn_step_bounds c s.1 height s.2 hs.1 hsp hs.2.1 hs.2.2 hh hy1 hy2
    have hrec := ih (c.update s.1 height s.2) height hh (by rw [hb.2.2]; exact hsp)
      (fun t ht => hsteps t (by simp [ht])) hb.1 hb.2.1
    simpa [MatrixColumn.run, List.foldl_cons] using hrec

/-- C7 counterexample: the claim says the wrapped y is drawn from
[-height, 0), i.e. is strictly negative, but with wrap random 0 the code
computes `0 * -height = 0`.  Column at y 200, speed 100; height 100,
dt 1: y would reach 300 > 200, the wrap fires and yields exactly 0. -/
theorem matrixColumn_wrap_counterexample :
    ((MatrixColumn.mk 0 200 100).update 1 100 0).y = 0 ∧
    ¬ ((MatrixColumn.mk 0 200 100).update 1 100 0).y < 0 := by
  constructor
  · norm_num [MatrixColumn.update]
  · norm_num [MatrixColumn.update]

/-- C7 amended: `update(dt, height)` advances y by `speed * dt`; whenever
that would exceed `height + 100` it instead resets y to `r * -height`,
which for the wrap random r in [0,1) lies in (-height, 0] (the claimed
interval [-height, 0) is wrong at both endpoints); consequently, starting
inside [-height, height+100], y stays within [-height, height+100] after
any number of update calls. -/
theorem matrixColumn_update_bounds (c : MatrixColumn) (dt height r : ℚ)
    (hdt : 0 ≤ dt) (hsp : 0 ≤ c.speed) (hr0 : 0 ≤ r) (hr1 : r < 1) (hh : 0 < height)
    (steps : List (ℚ × ℚ)) (hsteps : ∀ s ∈ steps, 0 ≤ s.1 ∧ 0 ≤ s.2 ∧ s.2 < 1)
    (hy1 : -height ≤ c.y) (hy2 : c.y ≤ height + 100) :
    (¬ c.y + c.speed * dt > height + 100 →
       (c.update dt height r).y = c.y + c.speed * dt) ∧
    (c.y + c.speed * dt > height + 100 →
       (c.update dt height r).y = r * (-height) ∧
       -height < (c.update dt height r).y ∧ (c.update dt height r).y ≤ 0) ∧
    (-height ≤ (c.run height steps).y ∧ (c.run height steps).y ≤ height + 100) := by
  refine ⟨?_, ?_, matrixColumn_run_bounds steps c height hh hsp hsteps hy1 hy2⟩
  · intro h
    rw [MatrixColumn.update]
    simp only [if_neg h]
  · intro h
    rw [MatrixColumn.update]
    simp only [if_pos h]
    refine ⟨by trivial, ?_, ?_⟩
    · nlinarith [mul_nonneg (by linarith : (0:ℚ) ≤ 1 - r) hh.le]
    · nlinarith [mul_nonneg hr0 hh.le]

/-- Witness for the amended C7 at a concrete column and run. -/
theorem matrixColumn_update_bounds_witness :
    -100 ≤ ((MatrixColumn.new 0 100 (1/2) 0).run 100 [(1, 1/2)]).y ∧
    ((MatrixColumn.new 0 100 (1/2) 0).run 100 [(1, 1/2)]).y ≤ 100 + 100 :=
  (matrixColumn_update_bounds (MatrixColumn.new 0 100 (1/2) 0) 1 100 (1/2)
    (by norm_num) (by norm_num [MatrixColumn.new]) (by norm_num) (by norm_num)
    (by norm_num) [(1, 1/2)]
    (by intro s hs
        rw [List.mem_singleton] at hs
        subst hs
        norm_num)
    (by norm_num [MatrixColumn.new]) (by norm_num [MatrixColumn.new])).2.2

/-! ## C6 -/

/-- One chunk step keeps opacity at most 0.8, and nonnegative while the
chunk has not entered fadeOut. -/
theorem codeChunk_alpha_step (c : CodeChunk) (dt rh : ℚ) (hdt : 0 ≤ dt)
    (h1 : c.alpha ≤ 0.8) (h2 : c.state ≠ ChunkState.fadeOut → 0 ≤ c.alpha) :
    (c.update dt rh).alpha ≤ 0.8 ∧
    ((c.update dt rh).state ≠ ChunkState.fadeOut → 0 ≤ (c.update dt rh).alpha) := by
  obtain ⟨d, sp, a, st, yy, xx, tl, ht⟩ := c
  cases st with
  | fadeIn =>
    have h0 : 0 ≤ a := h2 (by simp)
    simp only [CodeChunk.update]
    by_cases hge : a + dt * 0.5 ≥ 0.8
    · simp only [if_pos hge]
      exact ⟨le_refl _, fun _ => by norm_num⟩
    · simp only [if_neg hge]
      refine ⟨le_of_lt (not_le.mp hge), fun _ => by nlinarith⟩
  | hold =>
    have h0 : 0 ≤ a := h2 (by simp)
    simp only [CodeChunk.update]
    by_cases hle : ht - dt ≤ 0
    · simp only [if_pos hle]
      exact ⟨h1, fun _ => h0⟩
    · simp only [if_neg hle]
      exact ⟨h1, fun _ => h0⟩
  | fadeOut =>
    simp only [CodeChunk.update]
    refine ⟨by nlinarith, fun hcon => absurd rfl hcon⟩

/-- The chunk opacity invariant holds over any run. -/
theorem codeChunk_alpha_run : ∀ (steps : List (ℚ × ℚ)) (c : CodeChunk),
    (∀ s ∈ steps, 0 ≤ s.1) → c.alpha ≤ 0.8 → (c.state ≠ ChunkState.fadeOut → 0 ≤ c.alpha) →
    (c.run steps).alpha ≤ 0.8 ∧
    ((c.run steps).state ≠ ChunkState.fadeOut → 0 ≤ (c.run steps).alpha) := by
  intro steps
  induction steps with
  | nil =>
    intro c _ h1 h2
    exact ⟨h1, h2⟩
  | cons s rest ih =>
    intro c hsteps h1 h2
    have hstep := codeChunk_alpha_step c s.1 s.2 (hsteps s (by simp)) h1 h2
    have hrec := ih (c.update s.1 s.2) (fun t ht => hsteps t (by simp [ht]))
      hstep.1 hstep.2
    simpa [CodeChunk.run, List.foldl_cons] using hrec

/-- C6 counterexample: the claim says opacity never goes below 0, but in
fadeOut the code subtracts `dt * 0.3` with no floor: a chunk at opacity
0.1 updated with dt = 1 reaches opacity -0.2. -/
theorem codeChunk_opacity_counterexample :
    ((CodeChunk.mk 1 20 (1/10) ChunkState.fadeOut 0 0 [] 0).update 1 0).alpha < 0 := by
  norm_num [CodeChunk.update]

/-- C6 amended: over any update sequence with dt ≥ 0 a freshly spawned
chunk keeps opacity at most 0.8 (rising at 0.5/s during fadeIn, clamped at
0.8, unchanged during hold) and nonnegative as long as it has not entered
fadeOut; during fadeOut opacity decreases at 0.3/s with no lower floor, so
it can drop below 0. -/
theorem codeChunk_opacity_bounds (c : CodeChunk) (dt rh width height : ℚ)
    (text : List String) (d rs ry : ℚ) (steps : List (ℚ × ℚ))
    (hsteps : ∀ s ∈ steps, 0 ≤ s.1) :
    (c.state = ChunkState.fadeIn →
      (c.update dt rh).alpha =
        if c.alpha + dt * 0.5 ≥ 0.8 then 0.8 else c.alpha + dt * 0.5) ∧
    (c.state = ChunkState.hold → (c.update dt rh).alpha = c.alpha) ∧
    (c.state = ChunkState.fadeOut → (c.update dt rh).alpha = c.alpha - dt * 0.3) ∧
    (((CodeChunk.new width height text d rs ry).run steps).alpha ≤ 0.8 ∧
     (((CodeChunk.new width height text d rs ry).run steps).state ≠ ChunkState.fadeOut →
       0 ≤ ((CodeChunk.new width height text d rs ry).run steps).alpha)) := by
  refine ⟨?_, ?_, ?_, ?_⟩
  · intro hst
    obtain ⟨dd, sp, a, st, yy, xx, tl, ht⟩ := c
    cases st with
    | fadeIn =>
      simp only [CodeChunk.update]
      by_cases hge : a + dt * 0.5 ≥ 0.8
      · simp only [if_pos hge]
      · simp only [if_neg hge]
    | hold => exact absurd hst (by simp)
    | fadeOut => exact absurd hst (by simp)
  · intro hst
    obtain ⟨dd, sp, a, st, yy, xx, tl, ht⟩ := c
    cases st with
    | fadeIn => exact absurd hst (by simp)
    | hold =>
      simp only [CodeChunk.update]
      by_cases hle : ht - dt ≤ 0
      · simp only [if_pos hle]
      · simp only [if_neg hle]
    | fadeOut => exact absurd hst (by simp)
  · intro hst
    obtain ⟨dd, sp, a, st, yy, xx, tl, ht⟩ := c
    cases st with
    | fadeIn => exact absurd hst (by simp)
    | hold => exact absurd hst (by simp)
    | fadeOut => simp only [CodeChunk.update]
  · exact codeChunk_alpha_run steps (CodeChunk.new width height text d rs ry) hsteps
      (by norm_num [CodeChunk.new]) (by norm_num [CodeChunk.new])

/-- Witness for the amended C6 at a concrete chunk and run. -/
theorem codeChunk_opacity_bounds_witness :
    ((CodeChunk.new 100 100 [] 1 0 0).run [(1, 0)]).alpha ≤ 0.8 :=
  (codeChunk_opacity_bounds (CodeChunk.mk 1 20 0 ChunkState.fadeIn 0 0 [] 0) 1 0 100 100
    [] 1 0 0 [(1, 0)]
    (by intro s hs
        rw [List.mem_singleton] at hs
        subst hs
        norm_num)).2.2.2.1

/-! ## C3 -/

/-- C3: `sendPacket` with both identifiers present appends exactly one
packet with t = 0 on a fresh link between the two looked-up nodes, leaving
nodes, links and the traffic timer unchanged; with either identifier
missing it is the identity on the whole system state. -/
theorem sendPacket_spec (s : NodeNetworkSystem) (fromId toId color : String) (speed : ℚ) :
    (∀ nf nt, s.nodes.find? (fun n => n.id = fromId) = some nf →
       s.nodes.find? (fun n => n.id = toId) = some nt →
       (s.sendPacket fromId toId color speed).packets =
         s.packets ++ [Packet.new (Link.mk nf nt) color speed] ∧
       (s.sendPacket fromId toId color speed).nodes = s.nodes ∧
       (s.sendPacket fromId toId color speed).links = s.links ∧
       (s.sendPacket fromId toId color speed).normalTrafficTimer = s.normalTrafficTimer ∧
       (Packet.new (Link.mk nf nt) color speed).t = 0) ∧
    ((s.nodes.find? (fun n => n.id = fromId) = none ∨
      s.nodes.find? (fun n => n.id = toId) = none) →
      s.sendPacket fromId toId color speed = s) := by
  constructor
  · intro nf nt hf ht
    rw [NodeNetworkSystem.sendPacket]
    rw [hf, ht]
    exact ⟨rfl, rfl, rfl, rfl, rfl⟩
  · rintro (h | h)
    · rcases h2 : s.nodes.find? (fun n => n.id = toId) with _ | nt <;>
        simp only [NodeNetworkSystem.sendPacket, h, h2]
    · rcases h1 : s.nodes.find? (fun n => n.id = fromId) with _ | nf <;>
        simp only [NodeNetworkSystem.sendPacket, h, h1]

/-- Witness for C3 on the concrete 1024x768 layout: sending from router to
desktop1 appends one packet with t = 0, and sending from a nonexistent id
leaves the system unchanged. -/
theorem sendPacket_spec_witness :
    ((NodeNetworkSystem.new 1024 768).sendPacket "router" "desktop1" "#00ff88" 180).packets =
      (NodeNetworkSystem.new 1024 768).packets ++
        [Packet.new (Link.mk (Node.new "router" (1024 * 0.45) (768 * 0.35) "router")
           (Node.new "desktop1" (1024 * 0.45) (768 * 0.35 - 768 * 0.25 * 0.6) "desktop"))
           "#00ff88" 180] ∧
    (NodeNetworkSystem.new 1024 768).sendPacket "ghost" "desktop1" "#00ff88" 180 =
      NodeNetworkSystem.new 1024 768 := by
  constructor
  · exact ((sendPacket_spec (NodeNetworkSystem.new 1024 768) "router" "desktop1" "#00ff88"
      180).1
      (Node.new "router" (1024 * 0.45) (768 * 0.35) "router")
      (Node.new "desktop1" (1024 * 0.45) (768 * 0.35 - 768 * 0.25 * 0.6) "desktop")
      rfl rfl).1
  · exact (sendPacket_spec (NodeNetworkSystem.new 1024 768) "ghost" "desktop1" "#00ff88"
      180).2 (Or.inl rfl)

/-! ## C2 -/

/-- Any packet present after `sendPacket` was already present or is the
fresh one (t = 0, the given speed). -/
theorem sendPacket_packets_sub {s : NodeNetworkSystem} {f t c : String} {sp : ℚ} {q : Packet}
    (hq : q ∈ (s.sendPacket f t c sp).packets) :
    q ∈ s.packets ∨ (q.t = 0 ∧ q.speed = sp) := by
  rw [NodeNetworkSystem.sendPacket] at hq
  rcases h1 : s.nodes.find? (fun n => n.id = f) with _ | nf
  · rw [h1] at hq
    exact Or.inl hq
  · rcases h2 : s.nodes.find? (fun n => n.id = t) with _ | nt
    · rw [h1, h2] at hq
      exact Or.inl hq
    · rw [h1, h2] at hq
      simp only at hq
      rcases List.mem_append.mp hq with h | h
      · exact Or.inl h
      · right
        rw [List.mem_singleton] at h
        subst h
        exact ⟨rfl, rfl⟩

/-- Any packet present after the traffic phase was already present or is
one of the two fresh traffic packets (t = 0, speed `120 + r * 120`). -/
theorem stepTraffic_packets_sub {s : NodeNetworkSystem} {dt rt rp rs1 rs2 : ℚ} {q : Packet}
    (hq : q ∈ (s.stepTraffic dt rt rp rs1 rs2).packets) :
    q ∈ s.packets ∨
      (q.t = 0 ∧ (q.speed = 120 + rs1 * 120 ∨ q.speed = 120 + rs2 * 120)) := by
  rw [NodeNetworkSystem.stepTraffic] at hq
  dsimp only at hq
  split at hq
  · split at hq
    · split at hq
      · rcases sendPacket_packets_sub hq with h | h
        · rcases sendPacket_packets_sub h with h2 | h2
          · exact Or.inl h2
          · exact Or.inr ⟨h2.1, Or.inl h2.2⟩
        · exact Or.inr ⟨h.1, Or.inr h.2⟩
      · exact Or.inl hq
    · exact Or.inl hq
  · exact Or.inl hq

/-- C2: a packet update with dt ≥ 0 and nonnegative speed never decreases
t; after a full `NodeNetworkSystem.update` every packet still in the
collection has t in [0,1) (a packet that reached t ≥ 1 is filtered out in
that same update); and `HackEvent.update` preserves that bound for every
packet in the network collection (its launch packet enters with t = 0), so
every packet present at draw time has t in [0,1]. -/
theorem packet_progress (p : Packet) (dt : ℚ) (s : NodeNetworkSystem)
    (rt rp rs1 rs2 : ℚ) (e : HackEvent) (ps : List Packet)
    (hdt : 0 ≤ dt) (hsp : 0 ≤ p.speed) (hrs1 : 0 ≤ rs1) (hrs2 : 0 ≤ rs2)
    (hpk : ∀ q ∈ s.packets, 0 ≤ q.t ∧ 0 ≤ q.speed)
    (hps : ∀ q ∈ ps, 0 ≤ q.t ∧ q.t < 1) :
    p.t ≤ (p.update dt).t ∧
    (∀ q ∈ (s.update dt rt rp rs1 rs2).packets, 0 ≤ q.t ∧ q.t < 1) ∧
    (∀ q ∈ (HackEvent.update e ps dt).2, 0 ≤ q.t ∧ q.t < 1) := by
  refine ⟨?_, ?_, ?_⟩
  · rw [Packet.update]
    have : 0 ≤ p.speed * dt := mul_nonneg hsp hdt
    simp only
    linarith
  · intro q hq
    rw [NodeNetworkSystem.update, NodeNetworkSystem.stepPackets] at hq
    simp only [List.mem_filter, List.mem_map] at hq
    obtain ⟨⟨q0, hq0, hq0eq⟩, hdone⟩ := hq
    have ht1 : q.t < 1 := by
      rw [Packet.isDone] at hdone
      simp only [Bool.not_eq_eq_eq_not, Bool.not_true, decide_eq_false_iff_not, not_le] at hdone
      exact hdone
    have ht0 : 0 ≤ q.t := by
      subst hq0eq
      rcases stepTraffic_packets_sub hq0 with h | h
      · have := hpk q0 h
        rw [Packet.update]
        simp only
        nlinarith [mul_nonneg this.2 hdt]
      · rw [Packet.update]
        simp only
        rcases h.2 with hsp2 | hsp2 <;> rw [h.1, hsp2] <;> nlinarith
    exact ⟨ht0, ht1⟩
  · intro q hq
    obtain ⟨st, tm, hk, tg, pk⟩ := e
    cases st with
    | prepare =>
      rw [HackEvent.update] at hq
      by_cases h : tm + dt > 0.5
      · rw [if_pos h] at hq
        exact hps q hq
      · rw [if_neg h] at hq
        exact hps q hq
    | launch =>
      rw [HackEvent.update] at hq
      simp only at hq
      rcases List.mem_append.mp hq with h | h
      · exact hps q h
      · rw [List.mem_singleton] at h
        subst h
        exact ⟨le_refl 0, by norm_num [Packet.new]⟩
    | inFlight =>
      rw [HackEvent.update] at hq
      rcases pk with _ | p0
      · exact hps q hq
      · simp only at hq
        by_cases h : p0.isDone
        · rw [if_pos h] at hq
          exact hps q hq
        · rw [if_neg h] at hq
          exact hps q hq
    | impact =>
      rw [HackEvent.update] at hq
      by_cases h : tm + dt > 1.5
      · rw [if_pos h] at hq
        exact hps q hq
      · rw [if_neg h] at hq
        exact hps q hq
    | done =>
      rw [HackEvent.update] at hq
      exact hps q hq

/-- Witness for C2 at a concrete packet, network and event. -/
theorem packet_progress_witness :
    (Packet.mk (Link.mk default default) (1/2) 100 "#00ff88").t ≤
      ((Packet.mk (Link.mk default default) (1/2) 100 "#00ff88").update 1).t :=
  (packet_progress (Packet.mk (Link.mk default default) (1/2) 100 "#00ff88") 1
    (NodeNetworkSystem.new 1024 768) 0 0 0 0
    (HackEvent.new (setupNodes 1024 768) 0) []
    (by norm_num) (by norm_num) (by norm_num) (by norm_num)
    (by intro q hq
        exact absurd hq (List.not_mem_nil q))
    (by intro q hq
        exact absurd hq (List.not_mem_nil q))).1

/-! ## C1 -/

/-- C1: the HackEvent state machine.  In `prepare` every tick writes the
hacker highlight to 1.0, leaves the packet list alone, and moves to
`launch` with timer reset exactly when the accumulated in-state time
exceeds 0.5s.  The tick in which the `launch` branch runs creates the one
packet hacker-to-target with color "#ff0066", speed 260 and t = 0, appends
it to the network packet collection and moves to `inFlight`.  In
`inFlight` the event moves to `impact` exactly when the owned packet has
t ≥ 1, at that moment writing the target highlight to 1.0 and resetting
the timer.  In `impact` the event moves to `done` exactly when the
in-state time exceeds 1.5s. -/
theorem hackEvent_state_machine (e : HackEvent) (ps : List Packet) (dt : ℚ) :
    (e.state = HackState.prepare →
       (e.update ps dt).1.hacker.hackedAlpha = 1 ∧
       (e.update ps dt).2 = ps ∧
       (0.5 < e.timer + dt →
         (e.update ps dt).1.state = HackState.launch ∧ (e.update ps dt).1.timer = 0) ∧
       (¬ 0.5 < e.timer + dt →
         (e.update ps dt).1.state = HackState.prepare ∧
         (e.update ps dt).1.timer = e.timer + dt)) ∧
    (e.state = HackState.launch →
       (e.update ps dt).1.state = HackState.inFlight ∧
       (e.update ps dt).1.packet =
         some (Packet.new (Link.mk e.hacker e.target) "#ff0066" 260) ∧
       (Packet.new (Link.mk e.hacker e.target) "#ff0066" 260).t = 0 ∧
       (e.update ps dt).2 = ps ++ [Packet.new (Link.mk e.hacker e.target) "#ff0066" 260]) ∧
    (e.state = HackState.inFlight →
       ((∃ p, e.packet = some p ∧ 1 ≤ p.t) →
          (e.update ps dt).1.state = HackState.impact ∧
          (e.update ps dt).1.timer = 0 ∧
          (e.update ps dt).1.target.hackedAlpha = 1) ∧
       ((∀ p, e.packet = some p → p.t < 1) →
          (e.update ps dt).1.state = HackState.inFlight) ∧
       (e.update ps dt).2 = ps) ∧
    (e.state = HackState.impact →
       (1.5 < e.timer + dt → (e.update ps dt).1.state = HackState.done) ∧
       (¬ 1.5 < e.timer + dt → (e.update ps dt).1.state = HackState.impact) ∧
       (e.update ps dt).2 = ps) := by
  obtain ⟨st, tm, hk, tg, pk⟩ := e
  cases st with
  | prepare =>
    refine ⟨fun _ => ?_, fun h => absurd h (by simp), fun h => absurd h (by simp),
      fun h => absurd h (by simp)⟩
    rw [HackEvent.update]
    by_cases h : tm + dt > 0.5
    · rw [if_pos h]
      exact ⟨rfl, rfl, fun _ => ⟨rfl, rfl⟩, fun hc => absurd h hc⟩
    · rw [if_neg h]
      exact ⟨rfl, rfl, fun hc => absurd hc h, fun _ => ⟨rfl, rfl⟩⟩
  | launch =>
    refine ⟨fun h => absurd h (by simp), fun _ => ?_, fun h => absurd h (by simp),
      fun h => absurd h (by simp)⟩
    rw [HackEvent.update]
    exact ⟨rfl, rfl, rfl, rfl⟩
  | inFlight =>
    refine ⟨fun h => absurd h (by simp), fun h => absurd h (by simp), fun _ => ?_,
      fun h => absurd h (by simp)⟩
    rw [HackEvent.update]
    rcases pk with _ | p0
    · refine ⟨?_, fun _ => rfl, rfl⟩
      rintro ⟨p, hp, -⟩
      exact absurd hp (by simp)
    · dsimp only
      by_cases hdone : p0.isDone
      · rw [if_pos hdone]
        refine ⟨fun _ => ⟨rfl, rfl, rfl⟩, ?_, rfl⟩
        intro hlt
        rw [Packet.isDone, decide_eq_true_eq] at hdone
        exact absurd hdone (not_le.mpr (hlt p0 rfl))
      · rw [if_neg hdone]
        refine ⟨?_, fun _ => rfl, rfl⟩
        rintro ⟨p, hp, hp1⟩
        rw [Option.some_inj] at hp
        subst hp
        rw [Packet.isDone, decide_eq_true_eq] at hdone
        exact absurd hp1 hdone
  | impact =>
    refine ⟨fun h => absurd h (by simp), fun h => absurd h (by simp),
      fun h => absurd h (by simp), fun _ => ?_⟩
    rw [HackEvent.update]
    by_cases h : tm + dt > 1.5
    · rw [if_pos h]
      exact ⟨fun _ => rfl, fun hc => absurd h hc, rfl⟩
    · rw [if_neg h]
      exact ⟨fun hc => absurd hc h, fun _ => rfl, rfl⟩
  | done =>
    exact ⟨fun h => absurd h (by simp), fun h => absurd h (by simp),
      fun h => absurd h (by simp), fun h => absurd h (by simp)⟩

/-- Witness for C1: a fresh event on the 1024x768 layout, one update with
dt = 1: the hacker highlight is written and the event moves to launch
with the timer reset. -/
theorem hackEvent_state_machine_witness :
    ((HackEvent.new (setupNodes 1024 768) 0).update [] 1).1.hacker.hackedAlpha = 1 ∧
    ((HackEvent.new (setupNodes 1024 768) 0).update [] 1).1.state = HackState.launch ∧
    ((HackEvent.new (setupNodes 1024 768) 0).update [] 1).1.timer = 0 := by
  have h := (hackEvent_state_machine (HackEvent.new (setupNodes 1024 768) 0) [] 1).1 rfl
  have h2 := h.2.2.1 (by norm_num [HackEvent.new])
  exact ⟨h.1, h2.1, h2.2⟩

/-! ## C9 -/

/-- Element read with a default from a position inside the list is a
member. -/
theorem getD_mem_of_lt : ∀ {α : Type} (l : List α) (i : ℕ) (d : α),
    i < l.length → l.getD i d ∈ l := by
  intro α l
  induction l with
  | nil =>
    intro i d h
    exact absurd h (by simp)
  | cons a t ih =>
    intro i d h
    cases i with
    | zero =>
      rw [List.getD_cons_zero]
      exact List.mem_cons_self a t
    | succ j =>
      rw [List.getD_cons_succ]
      exact List.mem_cons_of_mem a (ih j d (by simpa using h))

/-- Every freshly built layout object carries highlight 0. -/
theorem layoutObjs_alpha (w h : ℚ) : ∀ o ∈ RefModel.layoutObjs w h, o.hackedAlpha = 0 := by
  intro o ho
  rw [RefModel.layoutObjs] at ho
  rcases List.mem_map.mp ho with ⟨n, hn, rfl⟩
  show n.hackedAlpha = 0
  rw [setupNodes] at hn
  simp only [List.mem_cons, List.not_mem_nil, or_false] at hn
  rcases hn with rfl | rfl | rfl | rfl | rfl | rfl | rfl | rfl | rfl <;> rfl

/-- C9: `setupLayout` on the reference model allocates nine fresh node
objects (every address it hands out is ≥ the old allocation bound and its
object has highlight 0, so all old node identities are discarded), writes
nothing to any previously allocated address (in particular every old node
keeps its position), and leaves the packet list untouched — so packets and
hack events created before a resize-triggered re-layout keep their
references to the old, unmodified node objects. -/
theorem setupLayout_ref_spec (s : RefModel.NetRef) (width height : ℚ) :
    (∀ a, a < s.nextAddr → (s.setupLayout width height).heap a = s.heap a) ∧
    (∀ a ∈ (s.setupLayout width height).nodes,
       s.nextAddr ≤ a ∧ ((s.setupLayout width height).heap a).hackedAlpha = 0) ∧
    (s.setupLayout width height).packets = s.packets ∧
    (s.setupLayout width height).nextAddr = s.nextAddr + 9 := by
  refine ⟨?_, ?_, rfl, rfl⟩
  · intro a ha
    rw [RefModel.NetRef.setupLayout]
    dsimp only
    rw [if_neg (fun hc => absurd hc.1 (not_le.mpr ha))]
  · intro a hmem
    rw [RefModel.NetRef.setupLayout] at hmem
    dsimp only at hmem
    rcases List.mem_map.mp hmem with ⟨i, hi, rfl⟩
    rw [List.mem_range] at hi
    refine ⟨Nat.le_add_right _ _, ?_⟩
    rw [RefModel.NetRef.setupLayout]
    dsimp only
    rw [if_pos ⟨Nat.le_add_right _ _, by omega⟩]
    have hidx : s.nextAddr + i - s.nextAddr = i := by omega
    rw [hidx]
    exact layoutObjs_alpha width height _ (getD_mem_of_lt _ i default hi)

/-- Witness for C9: on a model with one previously allocated node at
address 0, the re-layout leaves that address untouched. -/
theorem setupLayout_ref_spec_witness :
    ((⟨fun _ => default, 1, [0], [], []⟩ : RefModel.NetRef).setupLayout 10 10).heap 0 =
      (default : RefModel.NodeObj) :=
  (setupLayout_ref_spec ⟨fun _ => default, 1, [0], [], []⟩ 10 10).1 0 (by norm_num)

/-! ## C10 -/

/-- A chunk with positive opacity is not dead. -/
theorem isDead_eq_false_of_pos (c : CodeChunk) (w : ℚ) (h : 0 < c.alpha) :
    c.isDead w = false := by
  rw [CodeChunk.isDead, decide_eq_false (not_le.mpr h)]
  exact Bool.false_and _

/-- A chunk inside the 400px margin is not dead. -/
theorem isDead_eq_false_of_inbounds (c : CodeChunk) (w : ℚ)
    (h1 : -400 ≤ c.x) (h2 : c.x ≤ w + 400) : c.isDead w = false := by
  rw [CodeChunk.isDead, decide_eq_false (not_lt.mpr h1), decide_eq_false (not_lt.mpr h2)]
  rw [Bool.or_false]
  exact Bool.and_false _

/-- A freshly spawned chunk survives its first update for any dt ≥ 0. -/
theorem fresh_chunk_not_dead (width height : ℚ) (tl : List String) (dir rs ry dt rh : ℚ)
    (hdt : 0 ≤ dt) (hw : 0 ≤ width) (hdir : dir = 1 ∨ dir = -1) :
    ((CodeChunk.new width height tl dir rs ry).update dt rh).isDead width = false := by
  rw [CodeChunk.new, CodeChunk.update]
  dsimp only
  by_cases hge : (0:ℚ) + dt * 0.5 ≥ 0.8
  · rw [if_pos hge]
    apply isDead_eq_false_of_pos
    show (0:ℚ) < 0.8
    norm_num
  · rw [if_neg hge]
    rcases eq_or_lt_of_le hdt with heq | hpos
    · apply isDead_eq_false_of_inbounds
      · show -400 ≤ (if dir = 1 then -300 else width + 300) + dir * (20 + rs * 40) * dt
        rw [← heq]
        rcases hdir with rfl | rfl
        · rw [if_pos rfl]
          norm_num
        · rw [if_neg (by norm_num)]
          linarith
      · show (if dir = 1 then -300 else width + 300) + dir * (20 + rs * 40) * dt ≤ width + 400
        rw [← heq]
        rcases hdir with rfl | rfl
        · rw [if_pos rfl]
          linarith
        · rw [if_neg (by norm_num)]
          linarith
    · apply isDead_eq_false_of_pos
      show (0:ℚ) < 0 + dt * 0.5
      linarith

/-- A node with highlight 0 is unchanged by a decay step. -/
theorem node_update_of_alpha_zero (n : Node) (dt : ℚ) (h : n.hackedAlpha = 0) :
    n.update dt = n := by
  rw [Node.update, if_neg]
  rw [h]
  exact lt_irrefl 0

/-- With pairwise distinct ids, looking a member node up by its own id
finds exactly that node. -/
theorem find_id_eq_self : ∀ {nodes : List Node},
    (nodes.map Node.id).Nodup → ∀ {tgt : Node}, tgt ∈ nodes →
    nodes.find? (fun n => n.id = tgt.id) = some tgt := by
  intro nodes
  induction nodes with
  | nil =>
    intro _ tgt htgt
    exact absurd htgt (List.not_mem_nil tgt)
  | cons a l ih =>
    intro hnd tgt htgt
    rw [List.map_cons, List.nodup_cons] at hnd
    rcases List.mem_cons.mp htgt with rfl | htl
    · rw [List.find?_cons_of_pos _ (by simp)]
    · have hne : a.id ≠ tgt.id := by
        intro hcon
        exact hnd.1 (hcon ▸ List.mem_map_of_mem Node.id htl)
      rw [List.find?_cons_of_neg _ (by simp [hne])]
      exact ih hnd.2 htl

/-- With both lookups resolved, `sendPacket` appends the one fresh packet. -/
theorem sendPacket_found {s : NodeNetworkSystem} {f t : String} {nf nt : Node}
    (c : String) (sp : ℚ)
    (hf : s.nodes.find? (fun n => n.id = f) = some nf)
    (ht : s.nodes.find? (fun n => n.id = t) = some nt) :
    s.sendPacket f t c sp =
      { s with packets := s.packets ++ [Packet.new (Link.mk nf nt) c sp] } := by
  rw [NodeNetworkSystem.sendPacket, hf, ht]

/-- An event in `prepare` is never done after one update. -/
theorem hackEvent_prepare_not_done (e : HackEvent) (ps : List Packet) (dt : ℚ)
    (h : e.state = HackState.prepare) : (e.update ps dt).1.isDone = false := by
  obtain ⟨st, tm, hk, tg, pk⟩ := e
  cases st with
  | prepare =>
    rw [HackEvent.update]
    by_cases hc : tm + dt > 0.5
    · rw [if_pos hc]
      rfl
    · rw [if_neg hc]
      rfl
  | launch => exact absurd h (by simp)
  | inFlight => exact absurd h (by simp)
  | impact => exact absurd h (by simp)
  | done => exact absurd h (by simp)

/-- With both lookups resolved, `sendPacket` on an explicit record appends
the one fresh packet. -/
theorem sendPacket_eq (nds : List Node) (lks : List Link) (pks : List Packet) (tmr : ℚ)
    {f t : String} {nf nt : Node} (c : String) (sp : ℚ)
    (hf : nds.find? (fun n => n.id = f) = some nf)
    (ht : nds.find? (fun n => n.id = t) = some nt) :
    NodeNetworkSystem.sendPacket ⟨nds, lks, pks, tmr⟩ f t c sp =
      ⟨nds, lks, pks ++ [Packet.new (Link.mk nf nt) c sp], tmr⟩ := by
  rw [NodeNetworkSystem.sendPacket]
  dsimp only
  rw [hf, ht]

/-- A traffic phase whose countdown expires on a healthy layout emits
exactly the router-to-target and target-to-router packet pair. -/
theorem stepTraffic_spawns (nds : List Node) (lks : List Link) (tmr : ℚ)
    (dt rt rp rs1 rs2 : ℚ)
    (hzero : ∀ n ∈ nds, n.hackedAlpha = 0)
    (hnodup : (nds.map Node.id).Nodup)
    (htimer : tmr - dt ≤ 0)
    (router : Node)
    (hfr : nds.find? (fun n : Node => n.id = "router") = some router)
    (hlen : (nds.filter (fun n : Node => n.id ≠ "router" && n.id ≠ "hacker")).length ≠ 0)
    (hidx : Int.toNat ⌊rp *
        ((nds.filter (fun n : Node => n.id ≠ "router" && n.id ≠ "hacker")).length : ℚ)⌋ <
      (nds.filter (fun n : Node => n.id ≠ "router" && n.id ≠ "hacker")).length) :
    ∃ target : Node,
      target ∈ nds ∧ target.id ≠ "router" ∧ target.id ≠ "hacker" ∧
      (NodeNetworkSystem.stepTraffic ⟨nds, lks, [], tmr⟩ dt rt rp rs1 rs2).packets =
        [ Packet.new (Link.mk router target) "#00ff88" (120 + rs1 * 120)
        , Packet.new (Link.mk target router) "#00ff88" (120 + rs2 * 120) ] := by
  have hmap : List.map (fun n : Node => n.update dt) nds = nds := by
    conv_rhs => rw [← List.map_id nds]
    exact List.map_congr_left (fun n hn => node_update_of_alpha_zero n dt (hzero n hn))
  rw [NodeNetworkSystem.stepTraffic]
  dsimp only
  rw [hmap, if_pos htimer, hfr]
  dsimp only
  rw [if_pos hlen]
  have htgtmem := getD_mem_of_lt _ _ default hidx
  have hp := List.mem_filter.mp htgtmem
  obtain ⟨hmem, hpred⟩ := hp
  rw [Bool.and_eq_true, decide_eq_true_eq, decide_eq_true_eq] at hpred
  have hf1 : nds.find? (fun n : Node => n.id = router.id) = some router :=
    find_id_eq_self hnodup (List.mem_of_find?_eq_some hfr)
  have hf2 : nds.find? (fun n : Node => n.id =
      ((nds.filter (fun n : Node => n.id ≠ "router" && n.id ≠ "hacker")).getD
        (Int.toNat ⌊rp *
          ((nds.filter (fun n : Node => n.id ≠ "router" && n.id ≠ "hacker")).length : ℚ)⌋)
        default).id) = some
      ((nds.filter (fun n : Node => n.id ≠ "router" && n.id ≠ "hacker")).getD
        (Int.toNat ⌊rp *
          ((nds.filter (fun n : Node => n.id ≠ "router" && n.id ≠ "hacker")).length : ℚ)⌋)
        default) :=
    find_id_eq_self hnodup hmem
  rw [sendPacket_eq nds lks [] (0.3 + rt * 0.7) "#00ff88" (120 + rs1 * 120) hf1 hf2]
  rw [sendPacket_eq nds lks _ (0.3 + rt * 0.7) "#00ff88" (120 + rs2 * 120) hf2 hf1]
  exact ⟨_, hmem, hpred.1, hpred.2, by simp⟩

/-- C10: the three spawn countdowns (CodeChunkSystem timer, network
background-traffic timer, HackSystem cooldown) are constructed at 0, so
the very first update of each system spawns immediately for any dt ≥ 0:
the chunk system ends its first update holding exactly one (surviving)
chunk, the network traffic phase emits exactly the router-to-target and
target-to-router packet pair on the 1024x768 layout, and the hack system
ends its first update holding exactly one live HackEvent. -/
theorem first_update_spawns (w h dt width height rt rd rsnip rs ry : ℚ) (rh : ℕ → ℚ)
    (dt2 rt2 rp rs1 rs2 : ℚ) (nodes : List Node) (ps : List Packet) (dt3 rc rtgt : ℚ)
    (hdt : 0 ≤ dt) (hw : 0 ≤ width) (hdt2 : 0 ≤ dt2) (hrp0 : 0 ≤ rp) (hrp1 : rp < 1)
    (hdt3 : 0 ≤ dt3) :
    (CodeChunkSystem.new.timer = 0 ∧ (NodeNetworkSystem.new w h).normalTrafficTimer = 0 ∧
     HackSystem.new.cooldown = 0) ∧
    (CodeChunkSystem.new.update dt width height rt rd rsnip rs ry rh).chunks.length = 1 ∧
    (∃ router target : Node,
       router.id = "router" ∧ target ∈ (NodeNetworkSystem.new 1024 768).nodes ∧
       target.id ≠ "router" ∧ target.id ≠ "hacker" ∧
       ((NodeNetworkSystem.new 1024 768).stepTraffic dt2 rt2 rp rs1 rs2).packets =
         [ Packet.new (Link.mk router target) "#00ff88" (120 + rs1 * 120)
         , Packet.new (Link.mk target router) "#00ff88" (120 + rs2 * 120) ]) ∧
    (HackSystem.new.update nodes ps dt3 rc rtgt).1.events.length = 1 := by
  refine ⟨⟨rfl, rfl, rfl⟩, ?_, ?_, ?_⟩
  · rw [CodeChunkSystem.update]
    have ht0 : CodeChunkSystem.new.timer - dt ≤ 0 := by
      show (0:ℚ) - dt ≤ 0
      linarith
    simp only [if_pos ht0]
    rw [show CodeChunkSystem.new.chunks = [] from rfl, List.nil_append]
    have hsing : ∀ c : CodeChunk,
        (([c].enum).map (fun ci => ci.2.update dt (rh ci.1))) = [c.update dt (rh 0)] :=
      fun c => rfl
    rw [hsing]
    have hnd := fresh_chunk_not_dead width height (randomSnippet rsnip)
      (if rd > 0.5 then 1 else -1) rs ry dt (rh 0) hdt hw
      (by by_cases hrd : rd > 0.5
          · rw [if_pos hrd]
            left
            rfl
          · rw [if_neg hrd]
            right
            rfl)
    simp [List.filter_cons, hnd]
  · rcases hfr : (NodeNetworkSystem.new 1024 768).nodes.find?
        (fun n : Node => n.id = "router") with _ | router
    · exact absurd hfr (by decide)
    · have hlen7 : ((NodeNetworkSystem.new 1024 768).nodes.filter
          (fun n : Node => n.id ≠ "router" && n.id ≠ "hacker")).length = 7 := by decide
      have hidx : Int.toNat ⌊rp *
          (((NodeNetworkSystem.new 1024 768).nodes.filter
            (fun n : Node => n.id ≠ "router" && n.id ≠ "hacker")).length : ℚ)⌋ <
          ((NodeNetworkSystem.new 1024 768).nodes.filter
            (fun n : Node => n.id ≠ "router" && n.id ≠ "hacker")).length := by
        rw [hlen7]
        have h1 : ⌊rp * ((7:ℕ):ℚ)⌋ < (7:ℤ) := by
          apply Int.floor_lt.mpr
          push_cast
          nlinarith [hrp1]
        have h2 : (0:ℤ) ≤ ⌊rp * ((7:ℕ):ℚ)⌋ := by
          apply Int.floor_nonneg.mpr
          push_cast
          exact mul_nonneg hrp0 (by norm_num)
        omega
      obtain ⟨target, hmem, hp1, hp2, heq⟩ := stepTraffic_spawns
        (NodeNetworkSystem.new 1024 768).nodes (NodeNetworkSystem.new 1024 768).links 0
        dt2 rt2 rp rs1 rs2 (by decide) (by decide) (by linarith) router hfr
        (by rw [hlen7]; norm_num) hidx
      have hrid : router.id = "router" := by
        have hps := List.find?_some hfr
        simpa using hps
      exact ⟨router, target, hrid, hmem, hp1, hp2, heq⟩
  · rw [HackSystem.update]
    have hcd : HackSystem.new.cooldown - dt3 ≤ 0 := by
      show (0:ℚ) - dt3 ≤ 0
      linarith
    simp only [if_pos hcd]
    rw [show HackSystem.new.events = [] from rfl, List.nil_append]
    rw [List.foldl_cons, List.foldl_nil]
    have hnd1 : (HackEvent.update (HackEvent.new nodes rtgt) ps dt3).1.isDone = false :=
      hackEvent_prepare_not_done _ ps dt3 rfl
    simp [List.filter_cons, hnd1]

/-- Witness for C10 at concrete inputs. -/
theorem first_update_spawns_witness :
    (CodeChunkSystem.new.update 1 1024 768 0 0 0 0 0 (fun _ => 0)).chunks.length = 1 ∧
    (HackSystem.new.update (setupNodes 1024 768) [] 1 0 0).1.events.length = 1 := by
  have h := first_update_spawns 1024 768 1 1024 768 0 0 0 0 0 (fun _ => 0)
    1 0 (1/2) 0 0 (setupNodes 1024 768) [] 1 0 0
    (by norm_num) (by norm_num) (by norm_num) (by norm_num) (by norm_num) (by norm_num)
  exact ⟨h.2.1, h.2.2.2⟩
